import Mathlib

/-!
Verification development for the AITrendFinder pipeline.

This file gives a shallow embedding, in Lean 4, of the pure core of the
repository's recency/dedup/caching/JSON-repair pipeline, translated from the
TypeScript sources:

* `src/unnamed/part_009` — the recency classifier `isLikelyRecent`, the
  per-domain dedup loop of `scrapeSources` (dynamic-crawling branch) and the
  recency-rank comparator `isNewer`;
* `src/src/services/generateDraft.ts` — the resilient JSON parse ladder
  (direct parse, URL-quote repair, generic cleanups, emergency extraction)
  and `createEmergencyResponse`;
* `src/unnamed/part_012` (= the richer `sendDraft` variant) — the keyword
  category classifier `getCategoryFromContent`;
* `src/src/utils/apiCache.ts` — the expiring key/value cache `ApiCache` and
  the accessor `getCacheItem`;
* `src/src/services/contentStorage.ts` — `storeFullContent`.

Modelling conventions.  JavaScript strings are modelled as `List Char`;
timestamps (`Date.now()`, `getTime()`) as `Int` milliseconds; JS `Map` as an
association list updated in place (insertion order preserved, as in JS).
External black boxes are parameters: the absolute-date parser `new Date(s)`
is a parameter `pd : List Char → Option Int` (with `jsDateParseIso`, a
faithful executable model of JS parsing of strict `YYYY-MM-DD` strings, used
for concrete inputs), and the md5 key digest of the cache is a parameter
`hash : String → String` (the proved cache properties hold for every digest
function).  Regexes from the source are compiled by hand into scanners that
follow JavaScript regex semantics (leftmost match, greedy/lazy quantifiers,
ordered alternation) on the character classes the source uses; JS `\s` and
the JS line terminators are modelled by the four characters space, tab, LF,
CR, which are the ones that occur in this pipeline's data.  Floating-point
divisions by constants (`timeDiff / 3600000`) are modelled by the equivalent
integer-scaled comparisons.
-/

namespace AITrend

/-! ### Character and string utilities (JS semantics on `List Char`) -/

/-- JS `String.prototype.toLowerCase` restricted to ASCII (the only case
mapping exercised by this pipeline's literals; Korean text is unaffected). -/
def toLowerChar (c : Char) : Char :=
  if 65 ≤ c.toNat ∧ c.toNat ≤ 90 then Char.ofNat (c.toNat + 32) else c

def lowerStr (s : List Char) : List Char := s.map toLowerChar

/-- The decimal digits, JS regex `\d`. -/
def isDigitChar (c : Char) : Bool := 48 ≤ c.toNat ∧ c.toNat ≤ 57

/-- Whitespace: the subset of JS `\s` (and exactly the JSON whitespace set)
occurring in this pipeline's data. -/
def isSpaceChar (c : Char) : Bool := c = ' ' ∨ c = '\t' ∨ c = '\n' ∨ c = '\r'

/-- JS line terminators (`.` in a JS regex matches anything but these). -/
def isNewlineChar (c : Char) : Bool := c = '\n' ∨ c = '\r'

/-- JS `String.prototype.includes`. -/
def containsSub (s pat : List Char) : Bool :=
  match s with
  | [] => pat.isEmpty
  | _ :: rest => pat.isPrefixOf s || containsSub rest pat

/-- Case-insensitive literal matcher: if (the lowercase image of) `s` starts
with the pattern `p` (given pre-lowercased), return the rest of `s`. -/
def matchLitCI : List Char → List Char → Option (List Char)
  | [], s => some s
  | _ :: _, [] => none
  | p :: ps, c :: cs => if toLowerChar c = p then matchLitCI ps cs else none

/-- Case-sensitive literal matcher. -/
def matchLit : List Char → List Char → Option (List Char)
  | [], s => some s
  | _ :: _, [] => none
  | p :: ps, c :: cs => if c = p then matchLit ps cs else none

/-! ### Decimal numerals: rendering and `parseInt` -/

/-- The decimal digit character for `d < 10`. -/
def digitChar (d : Nat) : Char :=
  if d = 0 then '0' else if d = 1 then '1' else if d = 2 then '2'
  else if d = 3 then '3' else if d = 4 then '4' else if d = 5 then '5'
  else if d = 6 then '6' else if d = 7 then '7' else if d = 8 then '8' else '9'

/-- Decimal rendering of a natural number (no leading zeros). -/
def natChars (n : Nat) : List Char :=
  if _h : n < 10 then [digitChar n]
  else natChars (n / 10) ++ [digitChar (n % 10)]
  termination_by n
  decreasing_by exact Nat.div_lt_self (by omega) (by omega)

/-- JS `parseInt` on a string of decimal digits. -/
def digitsToNat (ds : List Char) : Nat :=
  ds.foldl (fun acc c => acc * 10 + (c.toNat - 48)) 0

/-- Abbreviation used to write the source's string literals. -/
def sl (s : String) : List Char := s.toList

/-! ### Relative-date regex scanners (`part_009`)

Each JS regex used by `isLikelyRecent` / `isNewer` is compiled into an
"attempt at the start of `s`" function plus a leftmost-first scanner
(`String.prototype.match` with a non-global regex returns the leftmost
match).  All patterns start with `(\d+)`, so an attempt at a given position
succeeds only if a digit stands there. -/

/-- Attempt of `/(\d+)\s*days?\s*ago/i` at the start of `s`.  The optional
`s?` is taken greedily; backtracking is unnecessary because declining a
present `s` would leave `ago` to match at that same `s`. -/
def daysAgoAt (s : List Char) : Option Nat :=
  let ds := s.takeWhile isDigitChar
  if ds.isEmpty then none
  else
    let r1 := (s.dropWhile isDigitChar).dropWhile isSpaceChar
    match matchLitCI (sl r"day") r1 with
    | none => none
    | some r2 =>
      let r3 := match matchLitCI (sl r"s") r2 with
        | some r => r
        | none => r2
      match matchLitCI (sl r"ago") (r3.dropWhile isSpaceChar) with
      | none => none
      | some _ => some (digitsToNat ds)

/-- The unit alternation of `/(\d+)\s*(hour|hours|minute|minutes|시간|분|h|m)\s*(ago|전)?/i`,
in source order.  The regex tail `\s*(ago|전)?` can never fail, so ordered
alternation reduces to "first alternative that is a prefix". -/
def timeUnitAlts : List (List Char) :=
  [sl r"hour", sl r"hours", sl r"minute", sl r"minutes", sl r"시간", sl r"분", sl r"h", sl r"m"]

def firstPrefixCI : List (List Char) → List Char → Option (List Char)
  | [], _ => none
  | p :: ps, s => if (matchLitCI p s).isSome then some p else firstPrefixCI ps s

/-- Attempt of the time pattern at the start of `s`; returns
(`parseInt` of group 1, the matched unit = group 2 lowercased). -/
def timePatternAt (s : List Char) : Option (Nat × List Char) :=
  let ds := s.takeWhile isDigitChar
  if ds.isEmpty then none
  else
    let r1 := (s.dropWhile isDigitChar).dropWhile isSpaceChar
    match firstPrefixCI timeUnitAlts r1 with
    | none => none
    | some u => some (digitsToNat ds, u)

/-- Does `\s*ago` (case-insensitively) match at the start of `r`? -/
def agoAfter (r : List Char) : Bool := (matchLitCI (sl r"ago") (r.dropWhile isSpaceChar)).isSome

/-- Ordered alternation followed by the mandatory `\s*ago` tail: the first
alternative whose continuation also succeeds wins (JS backtracking). -/
def altThenAgo : List (List Char) → List Char → Bool
  | [], _ => false
  | p :: ps, s =>
    match matchLitCI p s with
    | some r => if agoAfter r then true else altThenAgo ps s
    | none => altThenAgo ps s

/-- Attempt of `/(\d+)\s*(hour|hours)\s*ago/i` at the start of `s`. -/
def hoursAgoAt (s : List Char) : Option Nat :=
  let ds := s.takeWhile isDigitChar
  if ds.isEmpty then none
  else
    let r1 := (s.dropWhile isDigitChar).dropWhile isSpaceChar
    if altThenAgo [sl r"hour", sl r"hours"] r1 then some (digitsToNat ds) else none

/-- Attempt of `/(\d+)\s*(minute|minutes|min|mins)\s*ago/i` at the start of `s`. -/
def minsAgoAt (s : List Char) : Option Nat :=
  let ds := s.takeWhile isDigitChar
  if ds.isEmpty then none
  else
    let r1 := (s.dropWhile isDigitChar).dropWhile isSpaceChar
    if altThenAgo [sl r"minute", sl r"minutes", sl r"min", sl r"mins"] r1 then
      some (digitsToNat ds)
    else none

/-- Leftmost-match scanner: try the attempt at every position, left to right.
(The attempts above all require a leading digit, so the empty tail position
can never match and is skipped.) -/
def scanFor {α : Type} (att : List Char → Option α) : List Char → Option α
  | [] => none
  | c :: rest =>
    match att (c :: rest) with
    | some v => some v
    | none => scanFor att rest

def scanDaysAgo : List Char → Option Nat := scanFor daysAgoAt

def scanTimePattern : List Char → Option (Nat × List Char) := scanFor timePatternAt

def scanHoursAgo : List Char → Option Nat := scanFor hoursAgoAt

def scanMinsAgo : List Char → Option Nat := scanFor minsAgoAt

/-- The string `"<n> hours ago"` (after any digit run the rest is literal). -/
def hoursAgoStr (n : Nat) : List Char := natChars n ++ (' ' :: sl r"hours ago")

/-! ### The recency classifier `isLikelyRecent` (`part_009`, lines 176–285)

`isLikelyRecent(dateString, timeframeHours = 48)`.  External inputs made
explicit: `pd` models the JS `new Date(string) → getTime()` absolute-date
parser (`none` = `NaN`); `nowMs` models `Date.now()`; `todayStr` models
`new Date().toISOString().split('T')[0]`.  The float division
`hoursDiff = timeDiff / 3600000` compared against `timeframeHours` is
modelled by the integer-scaled comparison. -/

def recentTimeKeywords : List (List Char) :=
  [sl r"today", sl r"hours ago", sl r"minutes ago", sl r"just now", sl r"hour ago",
   sl r"min ago", sl r"mins ago", sl r"시간 전", sl r"분 전", sl r"방금",
   sl r"an hour ago", sl r"a minute ago", sl r"a few minutes ago"]

def oldKeywords : List (List Char) :=
  [sl r"last month", sl r"last year", sl r"last week", sl r"지난달", sl r"작년",
   sl r"지난주", sl r"지난 달", sl r"지난 해", sl r"2 days ago", sl r"3 days ago",
   sl r"4 days ago", sl r"5 days ago", sl r"weeks ago"]

/-- Steps 5–8: old-content keywords, today's ISO date, absolute-date parse,
conservative exclusion. -/
def isLikelyRecentTail (pd : List Char → Option Int) (nowMs : Int) (todayStr : List Char)
    (dateString dl : List Char) (timeframeHours : Nat) : Bool :=
  if oldKeywords.any (fun k => containsSub dl k) then false
  else if containsSub dl todayStr then true
  else
    match pd dateString with
    | some t => decide (nowMs - t ≤ (timeframeHours : Int) * 3600000)
    | none => false

/-- Steps 2–8: `"X days ago"`, `"yesterday"`, the minutes/hours pattern, then
the tail. -/
def isLikelyRecentRest (pd : List Char → Option Int) (nowMs : Int) (todayStr : List Char)
    (dateString dl : List Char) (timeframeHours : Nat) : Bool :=
  match scanDaysAgo dl with
  | some days => decide (days * 24 ≤ timeframeHours)
  | none =>
    if containsSub dl (sl r"yesterday") then decide (24 ≤ timeframeHours)
    else
      match scanTimePattern dl with
      | some (amount, unit) =>
        if containsSub unit (sl r"hour") || containsSub unit (sl r"시간") || unit = sl r"h" then
          decide (amount ≤ timeframeHours)
        else if containsSub unit (sl r"minute") || containsSub unit (sl r"min") ||
            containsSub unit (sl r"분") || unit = sl r"m" then
          true
        else isLikelyRecentTail pd nowMs todayStr dateString dl timeframeHours
      | none => isLikelyRecentTail pd nowMs todayStr dateString dl timeframeHours

/-- `isLikelyRecent` of `part_009`.  Step 1 returns `true` on a recent-time
keyword hit unless the string has an hours/days form, which is deferred to
the specific amount checks. -/
def isLikelyRecent (pd : List Char → Option Int) (nowMs : Int) (todayStr : List Char)
    (dateString : List Char) (timeframeHours : Nat) : Bool :=
  if dateString.all isSpaceChar then false
  else
    let dl := lowerStr dateString
    if recentTimeKeywords.any (fun k => containsSub dl k) then
      if !containsSub dl (sl r"days ago") &&
          (containsSub dl (sl r"hours ago") || containsSub dl (sl r"hour ago") ||
           containsSub dl (sl r"시간 전")) then
        isLikelyRecentRest pd nowMs todayStr dateString dl timeframeHours
      else if containsSub dl (sl r"days ago") then
        isLikelyRecentRest pd nowMs todayStr dateString dl timeframeHours
      else true
    else isLikelyRecentRest pd nowMs todayStr dateString dl timeframeHours

/-! ### The recency-rank comparator `isNewer` (`part_009`, lines 600–656)

`isNewer(date1?, date2?)` — `true` when the first date is considered more
recent.  JS falsiness of an optional string argument (`undefined` or `""`) is
modelled by `Option` plus an emptiness test.  The absolute-date comparison
`new Date(x).getTime()` is the parameter `pd` again. -/

def isNewerBody (pd : List Char → Option Int) (d1 d2 : List Char) : Bool :=
  let dA1 := scanDaysAgo d1
  let dA2 := scanDaysAgo d2
  match dA1, dA2 with
  | some n1, some n2 => decide (n1 < n2)
  | _, _ =>
    let hA1 := scanHoursAgo d1
    let hA2 := scanHoursAgo d2
    match hA1, hA2 with
    | some n1, some n2 => decide (n1 < n2)
    | _, _ =>
      let mA1 := scanMinsAgo d1
      let mA2 := scanMinsAgo d2
      match mA1, mA2 with
      | some n1, some n2 => decide (n1 < n2)
      | _, _ =>
        if dA1.isSome && (hA2.isSome || mA2.isSome) then false
        else if !dA1.isSome && hA1.isSome && dA2.isSome then true
        else if !dA1.isSome && hA1.isSome && mA2.isSome then false
        else if !dA1.isSome && !hA1.isSome && mA1.isSome && (dA2.isSome || hA2.isSome) then true
        else
          match pd d1, pd d2 with
          | some t1, some t2 => decide (t1 > t2)
          | _, _ => true

def isNewer (pd : List Char → Option Int) (date1 date2 : Option (List Char)) : Bool :=
  match date1 with
  | none => false
  | some d1 =>
    if d1.isEmpty then false
    else
      match date2 with
      | none => true
      | some d2 =>
        if d2.isEmpty then true
        else isNewerBody pd d1 d2

/-! ### The dynamic-crawl aggregator's per-domain dedup (`part_009`, lines 517–534) -/

/-- A raw story, from the zod `StorySchema` of `part_009`.  The optional
classification/storage metadata fields (`content_storage_id`,
`content_storage_method`, `source`, `category`, `metadata`) are never read by
the recency filter or the dedup loop and are omitted from the embedding. -/
structure Story where
  headline : List Char
  link : List Char
  date_posted : List Char
  fullContent : Option (List Char) := none
  imageUrls : List (List Char) := []
  videoUrls : List (List Char) := []
  popularity : Option (List Char) := none

/-- `story.link.match(/^https?:\/\/([^\/]+)/i)?.[1] || story.link` —
the normalized domain used as dedup key. -/
def domainKey (link : List Char) : List Char :=
  match matchLitCI (sl r"http") link with
  | none => link
  | some r1 =>
    let r2 := match r1 with
      | c :: t => if toLowerChar c = 's' then t else r1
      | [] => r1
    match matchLit (sl r"://") r2 with
    | none => link
    | some r3 =>
      let host := r3.takeWhile (fun c => c ≠ '/')
      if host.isEmpty then link else host

/-- JS `Map.prototype.get`. -/
def alLookup {K V : Type} [DecidableEq K] (m : List (K × V)) (k : K) : Option V :=
  match m with
  | [] => none
  | (k', v) :: rest => if k' = k then some v else alLookup rest k

/-- JS `Map.prototype.set`: replace in place, otherwise append (insertion
order is preserved, as JS `Map` iteration does). -/
def alSet {K V : Type} [DecidableEq K] (m : List (K × V)) (k : K) (v : V) : List (K × V) :=
  match m with
  | [] => [(k, v)]
  | (k', v') :: rest => if k' = k then (k', v) :: rest else (k', v') :: alSet rest k v

/-- One iteration of the `storyBySource` loop:
`if (!storyBySource.has(source) || isNewer(story.date_posted, held.date_posted)) set(source, story)`. -/
def dedupStep (pd : List Char → Option Int) (m : List (List Char × Story)) (story : Story) :
    List (List Char × Story) :=
  let source := domainKey story.link
  match alLookup m source with
  | none => alSet m source story
  | some prev =>
    if isNewer pd (some story.date_posted) (some prev.date_posted) then alSet m source story
    else m

/-- The `storyBySource` loop: insert each story under its normalized domain,
replacing the held story when `isNewer` prefers the newcomer. -/
def storyBySourceFold (pd : List Char → Option Int) (stories : List Story) :
    List (List Char × Story) :=
  stories.foldl (dedupStep pd) []

/-- `Array.from(storyBySource.values())`. -/
def dedupBySource (pd : List Char → Option Int) (stories : List Story) : List Story :=
  (storyBySourceFold pd stories).map Prod.snd

/-- The dynamic-crawling branch of `scrapeSources`: filter by the recency
classifier with the source timeframe, then dedup per domain. -/
def dynamicFilterDedup (pd : List Char → Option Int) (nowMs : Int) (todayStr : List Char)
    (timeframeHours : Nat) (crawlResults : List Story) : List Story :=
  dedupBySource pd
    (crawlResults.filter (fun story => isLikelyRecent pd nowMs todayStr story.date_posted timeframeHours))

/-- Invariant of the dedup map: every entry is keyed by its story's domain,
and keys are pairwise distinct. -/
def DedupInv (m : List (List Char × Story)) : Prop :=
  (∀ p ∈ m, p.1 = domainKey p.2.link) ∧ (m.map Prod.fst).Nodup

/-! ### JSON values and `JSON.parse`

`JSON.parse` is the JS builtin (ECMA-404 grammar); it is embedded as a
recursive-descent parser over `List Char`.  Numbers are kept as their
lexemes (no theorem below inspects a numeric value), object members are kept
in source order, and a `\uXXXX` escape decodes to the corresponding code
point (lone surrogates, which Lean's `Char` cannot carry, are mapped to the
default character — no theorem below exercises them). -/

inductive Json where
  | null : Json
  | bool : Bool → Json
  | num : List Char → Json
  | str : List Char → Json
  | arr : List Json → Json
  | obj : List (List Char × Json) → Json

def hexVal (c : Char) : Option Nat :=
  if 48 ≤ c.toNat ∧ c.toNat ≤ 57 then some (c.toNat - 48)
  else if 97 ≤ c.toNat ∧ c.toNat ≤ 102 then some (c.toNat - 87)
  else if 65 ≤ c.toNat ∧ c.toNat ≤ 70 then some (c.toNat - 55)
  else none

/-- Body of a JSON string, after the opening quote: returns the decoded
characters and the rest after the closing quote. -/
def parseStringBody : List Char → Option (List Char × List Char)
  | [] => none
  | '"' :: rest => some ([], rest)
  | '\\' :: rest =>
    match rest with
    | [] => none
    | 'u' :: h1 :: h2 :: h3 :: h4 :: rest' =>
      match hexVal h1, hexVal h2, hexVal h3, hexVal h4 with
      | some a, some b, some c, some d =>
        (parseStringBody rest').map
          (fun p => (Char.ofNat (((a * 16 + b) * 16 + c) * 16 + d) :: p.1, p.2))
      | _, _, _, _ => none
    | e :: rest' =>
      let dec : Option Char :=
        if e = '"' then some '"' else if e = '\\' then some '\\'
        else if e = '/' then some '/' else if e = 'b' then some (Char.ofNat 8)
        else if e = 'f' then some (Char.ofNat 12) else if e = 'n' then some '\n'
        else if e = 'r' then some '\r' else if e = 't' then some '\t' else none
      match dec with
      | none => none
      | some d => (parseStringBody rest').map (fun p => (d :: p.1, p.2))
  | c :: rest =>
    if c.toNat < 32 then none
    else (parseStringBody rest).map (fun p => (c :: p.1, p.2))

def parseFrac (s : List Char) : Option (List Char × List Char) :=
  match s with
  | '.' :: t =>
    let ds := t.takeWhile isDigitChar
    if ds.isEmpty then none else some ('.' :: ds, t.dropWhile isDigitChar)
  | _ => some ([], s)

def parseExp (s : List Char) : Option (List Char × List Char) :=
  match s with
  | c :: t =>
    if c = 'e' ∨ c = 'E' then
      let (sg, t') : List Char × List Char :=
        match t with
        | '+' :: u => (['+'], u)
        | '-' :: u => (['-'], u)
        | _ => ([], t)
      let ds := t'.takeWhile isDigitChar
      if ds.isEmpty then none else some (c :: (sg ++ ds), t'.dropWhile isDigitChar)
    else some ([], s)
  | [] => some ([], [])

/-- JSON number lexeme: `-? (0 | [1-9][0-9]*) frac? exp?`. -/
def parseNumber (s : List Char) : Option (List Char × List Char) :=
  let (sgn, s1) : List Char × List Char :=
    match s with
    | '-' :: t => (['-'], t)
    | _ => ([], s)
  match s1 with
  | [] => none
  | c :: t =>
    let ip? : Option (List Char × List Char) :=
      if c = '0' then some (['0'], t)
      else if isDigitChar c then some (s1.takeWhile isDigitChar, s1.dropWhile isDigitChar)
      else none
    match ip? with
    | none => none
    | some (ip, r1) =>
      match parseFrac r1 with
      | none => none
      | some (fp, r2) =>
        match parseExp r2 with
        | none => none
        | some (ep, r3) => some (sgn ++ ip ++ fp ++ ep, r3)

mutual

def parseValue : Nat → List Char → Option (Json × List Char)
  | 0, _ => none
  | fuel + 1, s =>
    let s1 := s.dropWhile isSpaceChar
    match s1 with
    | [] => none
    | '{' :: rest =>
      let r := rest.dropWhile isSpaceChar
      match r with
      | '}' :: r' => some (Json.obj [], r')
      | _ => parseMembers fuel rest []
    | '[' :: rest =>
      let r := rest.dropWhile isSpaceChar
      match r with
      | ']' :: r' => some (Json.arr [], r')
      | _ => parseElements fuel rest []
    | '"' :: rest =>
      match parseStringBody rest with
      | none => none
      | some (cs, r) => some (Json.str cs, r)
    | _ :: _ =>
      match matchLit (sl r"true") s1 with
      | some r => some (Json.bool true, r)
      | none =>
        match matchLit (sl r"false") s1 with
        | some r => some (Json.bool false, r)
        | none =>
          match matchLit (sl r"null") s1 with
          | some r => some (Json.null, r)
          | none =>
            match parseNumber s1 with
            | some (lex, r) => some (Json.num lex, r)
            | none => none

def parseMembers : Nat → List Char → List (List Char × Json) → Option (Json × List Char)
  | 0, _, _ => none
  | fuel + 1, s, acc =>
    let s1 := s.dropWhile isSpaceChar
    match s1 with
    | '"' :: rest =>
      match parseStringBody rest with
      | none => none
      | some (key, r1) =>
        match r1.dropWhile isSpaceChar with
        | ':' :: r3 =>
          match parseValue fuel r3 with
          | none => none
          | some (v, r4) =>
            match r4.dropWhile isSpaceChar with
            | ',' :: r6 => parseMembers fuel r6 (acc ++ [(key, v)])
            | '}' :: r6 => some (Json.obj (acc ++ [(key, v)]), r6)
            | _ => none
        | _ => none
    | _ => none

def parseElements : Nat → List Char → List Json → Option (Json × List Char)
  | 0, _, _ => none
  | fuel + 1, s, acc =>
    match parseValue fuel s with
    | none => none
    | some (v, r1) =>
      match r1.dropWhile isSpaceChar with
      | ',' :: r3 => parseElements fuel r3 (acc ++ [v])
      | ']' :: r3 => some (Json.arr (acc ++ [v]), r3)
      | _ => none

end

/-- `JSON.parse`: one value, with only whitespace allowed around it. -/
def jsonParse (s : List Char) : Option Json :=
  match parseValue (s.length + 1) s with
  | none => none
  | some (j, rest) => if (rest.dropWhile isSpaceChar).isEmpty then some j else none

/-! ### The repair ladder of `generateDraft` (`generateDraft.ts`, lines 71–124)

and its helpers `fixBrokenUrls` (lines 201–213) and `createEmergencyResponse`
(lines 218–330).  In the embedding every stage is a total function, which is
the shape the source enforces with its `try`/`catch` blocks: no stage can
raise to the caller. -/

/-- Lazy tail of `/"(https?:\/\/[^"\s]*?)(?:"|$)/`: consume the shortest run
of non-quote non-whitespace characters ending at a quote or at the end;
returns (consumed run, rest after the match, whether a quote closed it). -/
def urlLazy : List Char → Option (List Char × List Char × Bool)
  | [] => some ([], [], false)
  | c :: rest =>
    if c = '"' then some ([], rest, true)
    else if isSpaceChar c then none
    else (urlLazy rest).map (fun p => (c :: p.1, p.2.1, p.2.2))

/-- Attempt of the broken-URL pattern at the start of `s`; returns the
captured URL (group 1) and the rest after the whole match. -/
def urlMatchAt (s : List Char) : Option (List Char × List Char) :=
  match s with
  | '"' :: r1 =>
    match matchLit (sl r"http") r1 with
    | none => none
    | some r2 =>
      let (sOpt, r3) : List Char × List Char :=
        match r2 with
        | 's' :: t => (['s'], t)
        | _ => ([], r2)
      match matchLit (sl r"://") r3 with
      | none => none
      | some r4 =>
        match urlLazy r4 with
        | none => none
        | some (u, rest, _) => some ((sl r"http") ++ sOpt ++ (sl r"://") ++ u, rest)
  | _ => none

/-- `fixBrokenUrls`: each match is replaced by `"url"` — identical to the
original when the match was closed by a quote, a repaired closing quote when
the match ran to the end of the string. -/
def fixBrokenUrlsGo : Nat → List Char → List Char
  | 0, s => s
  | _ + 1, [] => []
  | fuel + 1, c :: rest =>
    match urlMatchAt (c :: rest) with
    | some (u, r) => '"' :: (u ++ '"' :: fixBrokenUrlsGo fuel r)
    | none => c :: fixBrokenUrlsGo fuel rest

def fixBrokenUrls (s : List Char) : List Char := fixBrokenUrlsGo s.length s

/-- One of the two trailing-comma cleanups `/,\s*}/g → '}'`, `/,\s*]/g → ']'`. -/
def cleanCommaGo (close : Char) : Nat → List Char → List Char
  | 0, s => s
  | _ + 1, [] => []
  | fuel + 1, c :: rest =>
    if c = ',' then
      match rest.dropWhile isSpaceChar with
      | c2 :: r2 =>
        if c2 = close then close :: cleanCommaGo close fuel r2
        else c :: cleanCommaGo close fuel rest
      | [] => c :: cleanCommaGo close fuel rest
    else c :: cleanCommaGo close fuel rest

def isWordChar (c : Char) : Bool :=
  isDigitChar c ∨ (97 ≤ c.toNat ∧ c.toNat ≤ 122) ∨ (65 ≤ c.toNat ∧ c.toNat ≤ 90) ∨ c = '_'

/-- Attempt of `/(['"])?([a-zA-Z0-9_]+)(['"])?:/` at the start of `s`:
optionally quoted word followed by a colon; returns (word, rest after colon). -/
def keyQuoteAt (s : List Char) : Option (List Char × List Char) :=
  let s1 : List Char :=
    match s with
    | '\'' :: t => t
    | '"' :: t => t
    | _ => s
  let w := s1.takeWhile isWordChar
  if w.isEmpty then none
  else
    let r1 := s1.dropWhile isWordChar
    let r2 : List Char :=
      match r1 with
      | '\'' :: t => t
      | '"' :: t => t
      | _ => r1
    match r2 with
    | ':' :: r4 => some (w, r4)
    | _ => none

/-- The property-name-quoting replace: every match becomes `"word":`. -/
def keyQuoteGo : Nat → List Char → List Char
  | 0, s => s
  | _ + 1, [] => []
  | fuel + 1, c :: rest =>
    match keyQuoteAt (c :: rest) with
    | some (w, r) => '"' :: (w ++ '"' :: ':' :: keyQuoteGo fuel r)
    | none => c :: keyQuoteGo fuel rest

def doubleBackslashes : List Char → List Char
  | [] => []
  | c :: rest =>
    if c = '\\' then '\\' :: '\\' :: doubleBackslashes rest
    else c :: doubleBackslashes rest

/-- The generic cleanups of stage 3, in source order. -/
def cleanJson (s : List Char) : List Char :=
  let a := cleanCommaGo '}' s.length s
  let b := cleanCommaGo ']' a.length a
  let c := keyQuoteGo b.length b
  doubleBackslashes c

/-- Lazy tail of `/(.*?)(?:"|$)/` (JS `.` matches anything but a line
terminator): capture up to a quote or the end of the input. -/
def lazyDotCapture : List Char → Option (List Char)
  | [] => some []
  | c :: rest =>
    if c = '"' then some []
    else if isNewlineChar c then none
    else (lazyDotCapture rest).map (c :: ·)

/-- Lazy `(.*?)` up to a mandatory stop character. -/
def lazyDotUntil (stop : Char) : List Char → Option (List Char)
  | [] => none
  | c :: rest =>
    if c = stop then some []
    else if isNewlineChar c then none
    else (lazyDotUntil stop rest).map (c :: ·)

/-- Attempt of `/"<field>"\s*:\s*"(.*?)(?:"|$)/` at the start of `s`. -/
def fieldAt (field : List Char) (s : List Char) : Option (List Char) :=
  match matchLit ('"' :: (field ++ ['"'])) s with
  | none => none
  | some r1 =>
    match r1.dropWhile isSpaceChar with
    | ':' :: r3 =>
      match r3.dropWhile isSpaceChar with
      | '"' :: r5 => lazyDotCapture r5
      | _ => none
    | _ => none

/-- `.exec` of the field regex: leftmost match's group 1. -/
def scanField (field : List Char) : List Char → Option (List Char) :=
  scanFor (fieldAt field)

/-- Attempt of `/"<field>"\s*:\s*\[(.*?)\]/` at the start of `s`. -/
def arrayFieldAt (field : List Char) (s : List Char) : Option (List Char) :=
  match matchLit ('"' :: (field ++ ['"'])) s with
  | none => none
  | some r1 =>
    match r1.dropWhile isSpaceChar with
    | ':' :: r3 =>
      match r3.dropWhile isSpaceChar with
      | '[' :: r5 => lazyDotUntil ']' r5
      | _ => none
    | _ => none

def scanArrayField (field : List Char) : List Char → Option (List Char) :=
  scanFor (arrayFieldAt field)

/-- Attempt of `/"(https?:\/\/[^"]+)"/` at the start of `s`; the source then
strips the quotes of each match, so the capture itself is returned. -/
def urlTokenAt (s : List Char) : Option (List Char × List Char) :=
  match s with
  | '"' :: r1 =>
    match matchLit (sl r"http") r1 with
    | none => none
    | some r2 =>
      let (sOpt, r3) : List Char × List Char :=
        match r2 with
        | 's' :: t => (['s'], t)
        | _ => ([], r2)
      match matchLit (sl r"://") r3 with
      | none => none
      | some r4 =>
        let body := r4.takeWhile (fun c => c ≠ '"')
        if body.isEmpty then none
        else
          match r4.dropWhile (fun c => c ≠ '"') with
          | '"' :: rest => some ((sl r"http") ++ sOpt ++ (sl r"://") ++ body, rest)
          | _ => none
  | _ => none

def scanUrlTokens : Nat → List Char → List (List Char)
  | 0, _ => []
  | _ + 1, [] => []
  | fuel + 1, c :: rest =>
    match urlTokenAt (c :: rest) with
    | some (u, r) => u :: scanUrlTokens fuel r
    | none => scanUrlTokens fuel rest

def urlTokens (s : List Char) : List (List Char) := scanUrlTokens s.length s

/-- The story object synthesized by `createEmergencyResponse`. -/
structure EmergencyStory where
  description_ko : List Char
  title_ko : List Char
  story_or_tweet_link : List Char
  category : List Char
  fullContent : List Char
  fullContent_ko : List Char
  imageUrls : List (List Char)
  videoUrls : List (List Char)

/-- The fixed four-category set (shared between `generateDraft.ts` and the
classifier of `part_012`). -/
def validCategories : List (List Char) :=
  [sl r"모델 업데이트", sl r"연구 동향", sl r"시장 동향", sl r"개발자 도구"]

def defaultEmergencyStory : EmergencyStory where
  description_ko :=
    sl r"OpenAI 응답에서 유효한 JSON을 파싱할 수 없었습니다. API 응답 형식에 문제가 있습니다."
  title_ko := sl r"JSON 파싱 오류"
  story_or_tweet_link := sl r"https://help.openai.com"
  category := sl r"개발자 도구"
  fullContent := []
  fullContent_ko := []
  imageUrls := []
  videoUrls := []

/-- `createEmergencyResponse` of `generateDraft.ts`: start from the default
object and overwrite each field whose regex recovered a non-empty capture.
The recovered link is kept only when it starts with `http`; the recovered
category only when it is one of the four valid categories, `"개발자 도구"`
otherwise. -/
def createEmergencyStory (raw : List Char) : EmergencyStory :=
  let descM := scanField (sl r"description_ko") raw
  let titleM := scanField (sl r"title_ko") raw
  let linkM := scanField (sl r"story_or_tweet_link") raw
  let catM := scanField (sl r"category") raw
  let fullM := scanField (sl r"fullContent") raw
  let fullKoM := scanField (sl r"fullContent_ko") raw
  let imgs : List (List Char) :=
    match scanArrayField (sl r"imageUrls") raw with
    | some inner => urlTokens inner
    | none => []
  let vids : List (List Char) :=
    match scanArrayField (sl r"videoUrls") raw with
    | some inner => urlTokens inner
    | none => []
  { description_ko :=
      match descM with
      | some v => if v.isEmpty then defaultEmergencyStory.description_ko else v
      | none => defaultEmergencyStory.description_ko
    title_ko :=
      match titleM with
      | some v => if v.isEmpty then defaultEmergencyStory.title_ko else v
      | none => defaultEmergencyStory.title_ko
    story_or_tweet_link :=
      match linkM with
      | some v =>
        if v.isEmpty then defaultEmergencyStory.story_or_tweet_link
        else if (sl r"http").isPrefixOf v then v
        else sl r"https://www.example.com"
      | none => defaultEmergencyStory.story_or_tweet_link
    category :=
      match catM with
      | some c =>
        if c.isEmpty then defaultEmergencyStory.category
        else if c ∈ validCategories then c
        else sl r"개발자 도구"
      | none => defaultEmergencyStory.category
    fullContent :=
      match fullM with
      | some v => if v.isEmpty then [] else v
      | none => []
    fullContent_ko :=
      match fullKoM with
      | some v => if v.isEmpty then [] else v
      | none => []
    imageUrls := imgs
    videoUrls := vids }

def emergencyStoryJson (st : EmergencyStory) : Json :=
  Json.obj
    [(sl r"description_ko", Json.str st.description_ko),
     (sl r"title_ko", Json.str st.title_ko),
     (sl r"story_or_tweet_link", Json.str st.story_or_tweet_link),
     (sl r"category", Json.str st.category),
     (sl r"fullContent", Json.str st.fullContent),
     (sl r"fullContent_ko", Json.str st.fullContent_ko),
     (sl r"imageUrls", Json.arr (st.imageUrls.map Json.str)),
     (sl r"videoUrls", Json.arr (st.videoUrls.map Json.str))]

def emergencyJson (raw : List Char) : Json :=
  Json.obj
    [(sl r"interestingTweetsOrStories", Json.arr [emergencyStoryJson (createEmergencyStory raw)])]

def firstIdxOf (c : Char) : List Char → Option Nat
  | [] => none
  | a :: rest => if a = c then some 0 else (firstIdxOf c rest).map (· + 1)

def lastIdxOf (c : Char) (s : List Char) : Option Nat :=
  match firstIdxOf c s.reverse with
  | none => none
  | some i => some (s.length - 1 - i)

/-- The whole repair ladder of `generateDraft`: direct parse; else take the
text between the first `{` and the last `}`, apply `fixBrokenUrls` and
re-parse; else apply the generic cleanups and re-parse; else synthesize the
emergency object (also when no brace pair exists). -/
def ladderParse (raw : List Char) : Json :=
  match jsonParse raw with
  | some j => j
  | none =>
    match firstIdxOf '{' raw, lastIdxOf '}' raw with
    | some i, some j =>
      if i < j + 1 then
        let fixed := fixBrokenUrls ((raw.drop i).take (j + 1 - i))
        match jsonParse fixed with
        | some jv => jv
        | none =>
          match jsonParse (cleanJson fixed) with
          | some jv => jv
          | none => emergencyJson raw
      else emergencyJson raw
    | _, _ => emergencyJson raw

def expectedFieldKeys : List (List Char) :=
  [sl r"description_ko", sl r"title_ko", sl r"story_or_tweet_link", sl r"category",
   sl r"fullContent", sl r"fullContent_ko", sl r"imageUrls", sl r"videoUrls"]

def storyHasExpectedKeys (j : Json) : Bool :=
  match j with
  | Json.obj kvs => expectedFieldKeys.all (fun k => (alLookup kvs k).isSome)
  | _ => false

/-- Does the parsed object carry a story list whose first story has every
expected field key? -/
def hasAllExpectedKeys (j : Json) : Bool :=
  match j with
  | Json.obj kvs =>
    match alLookup kvs (sl r"interestingTweetsOrStories") with
    | some (Json.arr (first :: _)) => storyHasExpectedKeys first
    | _ => false
  | _ => false

/-! ### The keyword category classifier (`part_012`, lines 705–781)

`getCategoryFromContent(existingCategory?, content)`.  Each keyword is a
regex-free literal compiled with flags `gi`; a keyword's score contribution
is its number of non-overlapping case-insensitive occurrences in the
lowercased content. -/

def countOccurGo (pat : List Char) : Nat → List Char → Nat
  | 0, _ => 0
  | _ + 1, [] => 0
  | fuel + 1, c :: rest =>
    match matchLitCI pat (c :: rest) with
    | some r => 1 + countOccurGo pat fuel r
    | none => countOccurGo pat fuel rest

/-- `(contentLower.match(new RegExp(keyword, 'gi')) || []).length`. -/
def countOccurCI (pat s : List Char) : Nat := countOccurGo (lowerStr pat) s.length s

def categoryKeywordTable : List (List Char × List (List Char)) :=
  [(sl r"모델 업데이트",
    [sl r"gpt-", sl r"llama", sl r"claude", sl r"gemini", sl r"mistral", sl r"mixtral",
     sl r"palmyra", sl r"phi", sl r"falcon", sl r"모델 출시", sl r"업데이트", sl r"버전",
     sl r"릴리스", sl r"새로운 모델", sl r"모델 개선", sl r"llm", sl r"fine-tuning",
     sl r"fine tuned", sl r"파인튜닝", sl r"파라미터", sl r"parameter", sl r"학습 데이터",
     sl r"training data", sl r"foundation model", sl r"기반 모델", sl r"대형 언어 모델",
     sl r"large language model", sl r"생성형 AI", sl r"generative ai", sl r"베이스 모델",
     sl r"base model", sl r"앙상블", sl r"ensemble", sl r"토크나이저", sl r"tokenizer",
     sl r"context length", sl r"컨텍스트 길이", sl r"컨텍스트 윈도우", sl r"context window"]),
   (sl r"연구 동향",
    [sl r"논문", sl r"연구", sl r"발표", sl r"학습", sl r"알고리즘", sl r"성능", sl r"향상",
     sl r"연구팀", sl r"발견", sl r"혁신", sl r"arxiv", sl r"research", sl r"paper",
     sl r"study", sl r"academic", sl r"학술", sl r"benchmark", sl r"벤치마크", sl r"sota",
     sl r"state-of-the-art", sl r"state of the art", sl r"최신 기술", sl r"최신 연구",
     sl r"최신 논문", sl r"novel", sl r"새로운 방법", sl r"새로운 접근", sl r"method",
     sl r"approach", sl r"접근법", sl r"방법론", sl r"methodology", sl r"architecture",
     sl r"아키텍처", sl r"neural", sl r"뉴럴", sl r"transformer", sl r"트랜스포머",
     sl r"attention", sl r"어텐션", sl r"diffusion", sl r"디퓨전", sl r"gan",
     sl r"generative adversarial", sl r"reinforcement learning", sl r"강화학습",
     sl r"self-supervised", sl r"self supervised", sl r"자기지도학습", sl r"multimodal",
     sl r"멀티모달", sl r"다중모달"]),
   (sl r"시장 동향",
    [sl r"시장", sl r"투자", sl r"인수", sl r"합병", sl r"성장", sl r"전망", sl r"매출",
     sl r"기업", sl r"수익", sl r"사업", sl r"협력", sl r"파트너십", sl r"funding",
     sl r"펀딩", sl r"series", sl r"시리즈", sl r"valuation", sl r"기업가치", sl r"ipo",
     sl r"상장", sl r"stock", sl r"주식", sl r"market share", sl r"시장 점유율",
     sl r"market cap", sl r"시가총액", sl r"revenue", sl r"profit", sl r"이익", sl r"loss",
     sl r"손실", sl r"startup", sl r"스타트업", sl r"venture", sl r"벤처", sl r"capital",
     sl r"캐피탈", sl r"acquisition", sl r"merger", sl r"partnership", sl r"deal",
     sl r"계약", sl r"협약", sl r"alliance", sl r"제휴", sl r"industry", sl r"산업",
     sl r"sector", sl r"섹터", sl r"commercial", sl r"상업적", sl r"launch", sl r"출시",
     sl r"product", sl r"제품", sl r"service", sl r"서비스", sl r"customer", sl r"고객"]),
   (sl r"개발자 도구",
    [sl r"api", sl r"도구", sl r"플랫폼", sl r"개발", sl r"코드", sl r"라이브러리",
     sl r"프레임워크", sl r"sdk", sl r"오픈소스", sl r"개발자", sl r"tool", sl r"github",
     sl r"repository", sl r"레포지토리", sl r"package", sl r"패키지", sl r"developer",
     sl r"integration", sl r"통합", sl r"plugin", sl r"플러그인", sl r"extension",
     sl r"확장", sl r"addon", sl r"애드온", sl r"interface", sl r"인터페이스", sl r"cli",
     sl r"command line", sl r"명령줄", sl r"terminal", sl r"터미널", sl r"ide",
     sl r"environment", sl r"환경", sl r"debug", sl r"디버그", sl r"deployment",
     sl r"배포", sl r"release", sl r"open source", sl r"오픈소스", sl r"documentation",
     sl r"문서화", sl r"tutorial", sl r"튜토리얼", sl r"guide", sl r"가이드",
     sl r"features", sl r"기능", sl r"ui", sl r"user interface", sl r"사용자 인터페이스",
     sl r"ux", sl r"user experience", sl r"사용자 경험", sl r"workflow", sl r"워크플로우",
     sl r"automation", sl r"자동화"])]

/-- Score every category in declaration order and keep the strictly best;
`'연구 동향'` with score 0 is the starting value, so all-zero scores (and
ties) resolve to the earliest candidate. -/
def classifyByKeywords (content : List Char) : List Char :=
  let contentLower := lowerStr content
  let scores := categoryKeywordTable.map
    (fun p => (p.1, (p.2.map (fun k => countOccurCI k contentLower)).sum))
  (scores.foldl (fun best p => if p.2 > best.2 then p else best) (sl r"연구 동향", 0)).1

def getCategoryFromContent (existingCategory : Option (List Char)) (content : List Char) :
    List Char :=
  match existingCategory with
  | some e =>
    if e.isEmpty = false ∧ e ∈ validCategories then e
    else classifyByKeywords content
  | none => classifyByKeywords content

/-! ### The expiring API cache (`apiCache.ts`)

The md5 digest `hashKey` is an external library call; the embedding takes
the digest as a parameter `hash` and proves the cache laws for every choice
of it.  `Map` state is an association list; JS `Map` holds each key at most
once, which appears below as a `Nodup` hypothesis on the key column. -/

structure CacheItem (V : Type) where
  value : V
  expiry : Int

/-- JS `Map.prototype.delete` (keys are unique in a reachable `Map`). -/
def alErase {K V : Type} [DecidableEq K] : List (K × V) → K → List (K × V)
  | [], _ => []
  | p :: rest, k => if p.1 = k then rest else p :: alErase rest k

/-- `ApiCache.get`: look up under the hashed key; a present-but-expired item
is deleted and `undefined` is returned. -/
def cacheGet {V : Type} (hash : String → String) (st : List (String × CacheItem V))
    (key : String) (now : Int) : Option V × List (String × CacheItem V) :=
  let ck := hash key
  match alLookup st ck with
  | none => (none, st)
  | some item =>
    if item.expiry < now then (none, alErase st ck)
    else (some item.value, st)

/-- `ApiCache.set`: unconditional overwrite with expiry `now + ttl`. -/
def cacheSet {V : Type} (hash : String → String) (st : List (String × CacheItem V))
    (key : String) (v : V) (ttl now : Int) : List (String × CacheItem V) :=
  alSet st (hash key) ⟨v, now + ttl⟩

/-- `ApiCache.cleanExpired`. -/
def cacheCleanExpired {V : Type} (st : List (String × CacheItem V)) (now : Int) :
    List (String × CacheItem V) :=
  st.filter (fun p => decide (¬ p.2.expiry < now))

/-- `ApiCache.size`. -/
def cacheSize {V : Type} (st : List (String × CacheItem V)) : Nat := st.length

/-- A cacheable JS value, as relevant to `getCacheItem`'s `||` fallback. -/
inductive JsValue where
  | undef : JsValue
  | null : JsValue
  | bool : Bool → JsValue
  | num : Int → JsValue
  | str : List Char → JsValue
deriving DecidableEq

/-- JS truthiness (numeric values are modelled as integers, so the falsy
numbers are exactly `0`). -/
def truthy : JsValue → Bool
  | .undef => false
  | .null => false
  | .bool b => b
  | .num n => decide (n ≠ 0)
  | .str s => !s.isEmpty

/-- `getCacheItem(key, defaultValue)` = `ApiCache.get(key) || defaultValue`
(an omitted `defaultValue` is `undefined`). -/
def getCacheItem (hash : String → String) (st : List (String × CacheItem JsValue))
    (key : String) (dflt : JsValue) (now : Int) :
    JsValue × List (String × CacheItem JsValue) :=
  let r := cacheGet hash st key now
  let rv : JsValue :=
    match r.1 with
    | some v => v
    | none => JsValue.undef
  (if truthy rv then rv else dflt, r.2)

/-! ### The content store adapter (`contentStorage.ts`, `storeFullContent`)

The Supabase table is embedded as a list of rows; the external effects are
collapsed into an environment record: `configured` = `isSupabaseConfigured`,
`freshId` = the id the database would generate for an insert, `insertOk` /
`uploadOk` = whether the insert / storage upload succeeds, `nowIso` = the
`created_at` stamp.  The side writes to `ApiCache` (an unrelated metadata
cache) and the log-only `ensureStorageStructure` / latest-record probes do
not affect the store state or the result and are omitted. -/

inductive StorageMethod where
  | database : StorageMethod
  | storage : StorageMethod
  | none : StorageMethod
deriving DecidableEq

structure ContentRow where
  id : List Char
  story_id : List Char
  headline : Option (List Char)
  content_full : Option (List Char)
  storage_path : Option (List Char)
  content_length : Option Nat
  created_at : List Char
deriving DecidableEq

structure StorageResult where
  id : Option (List Char) := Option.none
  storyId : List Char
  method : StorageMethod
  path : Option (List Char) := Option.none
  size : Option Nat := Option.none
deriving DecidableEq

structure StoreEnv where
  configured : Bool
  freshId : List Char
  insertOk : Bool
  uploadOk : Bool
  nowIso : List Char

def MAX_DB_CONTENT_SIZE : Nat := 500000

/-- `supabase.from(CONTENTS_TABLE).select('id').eq('story_id', storyId).maybeSingle()`
(at most one row per `story_id` by the table's unique constraint; on a list
state the first matching row is returned). -/
def findByStoryId (rows : List ContentRow) (sid : List Char) : Option ContentRow :=
  rows.find? (fun r => r.story_id = sid)

/-- The truncation applied when a long content falls back to the database. -/
def truncateContent (content : List Char) : List Char :=
  content.take (MAX_DB_CONTENT_SIZE - 100) ++
    sl "\n\n[콘텐츠가 너무 길어 잘렸습니다. 전체 내용은 원본 링크를 참조하세요.]"

/-- `storeFullContent(storyId, headline, content)`; returns the result and
the table state after the call. -/
def storeFullContent (env : StoreEnv) (rows : List ContentRow)
    (storyId headline content : List Char) : StorageResult × List ContentRow :=
  if env.configured = false then
    ({ storyId := storyId, method := StorageMethod.none }, rows)
  else if content.all isSpaceChar then
    ({ storyId := storyId, method := StorageMethod.none }, rows)
  else
    match findByStoryId rows storyId with
    | some existing =>
      ({ storyId := storyId, id := some existing.id, method := StorageMethod.database }, rows)
    | Option.none =>
      let contentLength := content.length
      if contentLength < MAX_DB_CONTENT_SIZE then
        if env.insertOk then
          let row : ContentRow :=
            { id := env.freshId, story_id := storyId, headline := some headline,
              content_full := some content, storage_path := Option.none,
              content_length := some contentLength, created_at := env.nowIso }
          ({ storyId := storyId, id := some env.freshId, method := StorageMethod.database,
             size := some contentLength }, rows ++ [row])
        else ({ storyId := storyId, method := StorageMethod.none }, rows)
      else
        if env.uploadOk then
          let path := sl r"articles/" ++ storyId ++ sl r"/content.md"
          if env.insertOk then
            let row : ContentRow :=
              { id := env.freshId, story_id := storyId, headline := some headline,
                content_full := Option.none, storage_path := some path,
                content_length := some contentLength, created_at := env.nowIso }
            ({ storyId := storyId, id := some env.freshId, method := StorageMethod.storage,
               path := some path, size := some contentLength }, rows ++ [row])
          else ({ storyId := storyId, method := StorageMethod.none }, rows)
        else
          if env.insertOk then
            let truncated := truncateContent content
            let row : ContentRow :=
              { id := env.freshId, story_id := storyId, headline := some headline,
                content_full := some truncated, storage_path := Option.none,
                content_length := some truncated.length, created_at := env.nowIso }
            ({ storyId := storyId, id := some env.freshId, method := StorageMethod.database,
               size := some truncated.length }, rows ++ [row])
          else ({ storyId := storyId, method := StorageMethod.none }, rows)

/-- How a stored row is actually held: full text in the table = `database`,
a bucket path = `storage`. -/
def rowMethod (r : ContentRow) : StorageMethod :=
  if r.content_full.isSome then StorageMethod.database
  else if r.storage_path.isSome then StorageMethod.storage
  else StorageMethod.none

/-! ### A concrete absolute-date parser for witnesses

`jsDateParseIso` models the external JS `new Date(s).getTime()` on the
strict date-only ISO form `YYYY-MM-DD`, which JS parses as UTC midnight;
every other input is sent to `none` (`NaN`).  Theorems about the classifier
and the comparator quantify over the parser; this instance only feeds
concrete witnesses and counterexamples. -/

def daysInMonth (y m : Nat) : Nat :=
  if m = 2 then (if (y % 4 = 0 ∧ y % 100 ≠ 0) ∨ y % 400 = 0 then 29 else 28)
  else if m = 4 ∨ m = 6 ∨ m = 9 ∨ m = 11 then 30 else 31

/-- Days between 1970-01-01 and y-m-d (civil, proleptic Gregorian). -/
def daysFromCivil (y m d : Nat) : Int :=
  let yy : Int := (y : Int) - (if m ≤ 2 then 1 else 0)
  let era : Int := yy / 400
  let yoe : Int := yy - era * 400
  let doy : Int := (153 * ((m : Int) + (if m > 2 then -3 else 9)) + 2) / 5 + (d : Int) - 1
  let doe : Int := yoe * 365 + yoe / 4 - yoe / 100 + doy
  era * 146097 + doe - 719468

def jsDateParseIso (s : List Char) : Option Int :=
  match s with
  | [y1, y2, y3, y4, '-', m1, m2, '-', d1, d2] =>
    if ([y1, y2, y3, y4, m1, m2, d1, d2]).all isDigitChar then
      let y := digitsToNat [y1, y2, y3, y4]
      let m := digitsToNat [m1, m2]
      let d := digitsToNat [d1, d2]
      if 1 ≤ m ∧ m ≤ 12 ∧ 1 ≤ d ∧ d ≤ daysInMonth y m then
        some (daysFromCivil y m d * 86400000)
      else Option.none
    else Option.none
  | _ => Option.none

/-! ### Theorems -/

theorem matchLitCI_mem_head {p : Char} {ps s r : List Char}
    (h : matchLitCI (p :: ps) s = some r) : ∃ c ∈ s, toLowerChar c = p := by
  cases s with
  | nil => simp [matchLitCI] at h
  | cons c cs =>
    by_cases hc : toLowerChar c = p
    · exact ⟨c, List.mem_cons_self c cs, hc⟩
    · simp [matchLitCI, hc] at h

theorem isPrefixOf_subset {pat s : List Char} (h : pat.isPrefixOf s = true) :
    ∀ c ∈ pat, c ∈ s := by
  intro c hc
  exact (List.isPrefixOf_iff_prefix.mp h).subset hc

/-- If some character of the pattern never occurs in `s`, then `s` does not
contain the pattern. -/
theorem containsSub_eq_false {s pat : List Char} {c : Char}
    (hc : c ∈ pat) (hs : c ∉ s) : containsSub s pat = false := by
  induction s with
  | nil =>
    cases pat with
    | nil => simp at hc
    | cons p ps => simp [containsSub]
  | cons a rest ih =>
    rw [containsSub]
    have h₁ : pat.isPrefixOf (a :: rest) = false := by
      by_contra h
      have := isPrefixOf_subset (by simpa using h) c hc
      exact hs this
    have h₂ : containsSub rest pat = false :=
      ih (fun hmem => hs (List.mem_cons_of_mem a hmem))
    simp [h₁, h₂]

/-- Substring containment is stable under prepending. -/
theorem containsSub_append_left {t pat : List Char} (x : List Char)
    (h : containsSub t pat = true) : containsSub (x ++ t) pat = true := by
  induction x with
  | nil => simpa using h
  | cons a xs ih =>
    rw [List.cons_append, containsSub]
    simp [ih]

theorem digitChar_isDigit {d : Nat} (h : d < 10) : isDigitChar (digitChar d) = true := by
  interval_cases d <;> decide

theorem digitChar_toNat {d : Nat} (h : d < 10) : (digitChar d).toNat = 48 + d := by
  interval_cases d <;> decide

theorem natChars_ne_nil (n : Nat) : natChars n ≠ [] := by
  rw [natChars]
  split <;> simp

theorem natChars_all_digits (n : Nat) : ∀ c ∈ natChars n, isDigitChar c = true := by
  induction n using Nat.strong_induction_on with
  | _ n ih =>
    rw [natChars]
    split
    · intro c hc
      simp at hc
      subst hc
      exact digitChar_isDigit (by omega)
    · intro c hc
      rw [List.mem_append] at hc
      rcases hc with hc | hc
      · exact ih (n / 10) (Nat.div_lt_self (by omega) (by omega)) c hc
      · simp at hc
        subst hc
        exact digitChar_isDigit (Nat.mod_lt n (by omega))

theorem digitsToNat_append_one (xs : List Char) (c : Char) :
    digitsToNat (xs ++ [c]) = digitsToNat xs * 10 + (c.toNat - 48) := by
  simp [digitsToNat, List.foldl_append]

theorem digitsToNat_natChars (n : Nat) : digitsToNat (natChars n) = n := by
  induction n using Nat.strong_induction_on with
  | _ n ih =>
    rw [natChars]
    split
    · rename_i h
      simp [digitsToNat]
      rw [digitChar_toNat h]
      omega
    · rename_i h
      rw [digitsToNat_append_one, ih (n / 10) (Nat.div_lt_self (by omega) (by omega))]
      rw [digitChar_toNat (Nat.mod_lt n (by omega))]
      omega

/-- A digit character is not altered by lowering, is not whitespace, and is
none of the letters used by the date keywords. -/
theorem digit_facts {c : Char} (h : isDigitChar c = true) :
    toLowerChar c = c ∧ isSpaceChar c = false ∧ isDigitChar c = true := by
  simp [isDigitChar] at h
  refine ⟨?_, ?_, by simp [isDigitChar]; omega⟩
  · simp [toLowerChar]
    omega
  · have : c ≠ ' ' ∧ c ≠ '\t' ∧ c ≠ '\n' ∧ c ≠ '\r' := by
      refine ⟨?_, ?_, ?_, ?_⟩ <;> (intro hc; subst hc; simp at h)
    simp [isSpaceChar, this.1, this.2.1, this.2.2.1, this.2.2.2]

theorem digit_ne {c c' : Char} (h : isDigitChar c = true) (h' : isDigitChar c' = false) :
    c ≠ c' := by
  intro hc
  subst hc
  rw [h] at h'
  exact absurd h' (by simp)

theorem takeWhile_app {p : Char → Bool} {a : List Char} {b0 : Char} {bs : List Char}
    (ha : ∀ c ∈ a, p c = true) (hb : p b0 = false) :
    (a ++ b0 :: bs).takeWhile p = a := by
  induction a with
  | nil => simp [List.takeWhile, hb]
  | cons x xs ih =>
    have hx := ha x (List.mem_cons_self x xs)
    rw [List.cons_append, List.takeWhile_cons, hx]
    simp [ih (fun c hc => ha c (List.mem_cons_of_mem x hc))]

theorem dropWhile_app {p : Char → Bool} {a : List Char} {b0 : Char} {bs : List Char}
    (ha : ∀ c ∈ a, p c = true) (hb : p b0 = false) :
    (a ++ b0 :: bs).dropWhile p = b0 :: bs := by
  induction a with
  | nil => simp [List.dropWhile, hb]
  | cons x xs ih =>
    have hx := ha x (List.mem_cons_self x xs)
    rw [List.cons_append, List.dropWhile_cons, hx]
    simpa using ih (fun c hc => ha c (List.mem_cons_of_mem x hc))

theorem daysAgoAt_mem {s : List Char} {n : Nat} (h : daysAgoAt s = some n) :
    ∃ c ∈ s, toLowerChar c = 'd' := by
  simp only [daysAgoAt] at h
  split at h
  · exact absurd h (by simp)
  · rcases hm : matchLitCI (sl r"day") ((s.dropWhile isDigitChar).dropWhile isSpaceChar) with _ | r2
    · rw [hm] at h
      exact absurd h (by simp)
    · obtain ⟨c, hc, hlow⟩ := matchLitCI_mem_head hm
      have hsub : c ∈ s := by
        have h1 := List.dropWhile_sublist (p := isSpaceChar) (l := s.dropWhile isDigitChar)
        have h2 := List.dropWhile_sublist (p := isDigitChar) (l := s)
        exact h2.subset (h1.subset hc)
      exact ⟨c, hsub, hlow⟩

theorem scanDaysAgo_eq_none {s : List Char} (h : ∀ c ∈ s, toLowerChar c ≠ 'd') :
    scanDaysAgo s = none := by
  induction s with
  | nil => rfl
  | cons c rest ih =>
    rw [scanDaysAgo, scanFor]
    rcases ha : daysAgoAt (c :: rest) with _ | n
    · exact ih (fun x hx => h x (List.mem_cons_of_mem c hx))
    · obtain ⟨x, hx, hlow⟩ := daysAgoAt_mem ha
      exact absurd hlow (h x hx)

theorem natChars_isEmpty (n : Nat) : (natChars n).isEmpty = false := by
  obtain ⟨d0, ds, h⟩ := List.exists_cons_of_ne_nil (natChars_ne_nil n)
  rw [h]
  rfl

theorem all_eq_false_of_mem {p : Char → Bool} {s : List Char} {c : Char}
    (hc : c ∈ s) (hp : p c = false) : s.all p = false := by
  by_contra h
  have h' : s.all p = true := by
    cases ha : s.all p
    · exact absurd ha h
    · rfl
  rw [List.all_eq_true] at h'
  rw [h' c hc] at hp
  exact absurd hp (by simp)

theorem lowerStr_eq_self {s : List Char} (h : ∀ c ∈ s, toLowerChar c = c) :
    lowerStr s = s := by
  unfold lowerStr
  induction s with
  | nil => rfl
  | cons a rest ih =>
    rw [List.map_cons, h a (List.mem_cons_self a rest),
      ih (fun c hc => h c (List.mem_cons_of_mem a hc))]

theorem not_mem_numeral_append {c : Char} {b : List Char} (n : Nat)
    (hc : isDigitChar c = false) (hb : c ∉ b) : c ∉ natChars n ++ b := by
  intro h
  rcases List.mem_append.mp h with h1 | h1
  · have := natChars_all_digits n c h1
    rw [this] at hc
    exact absurd hc (by simp)
  · exact hb h1

theorem hoursAgoStr_take (n : Nat) : (hoursAgoStr n).takeWhile isDigitChar = natChars n :=
  takeWhile_app (natChars_all_digits n) (by decide)

theorem hoursAgoStr_drop (n : Nat) :
    (hoursAgoStr n).dropWhile isDigitChar = ' ' :: sl r"hours ago" :=
  dropWhile_app (natChars_all_digits n) (by decide)

theorem timePatternAt_numeral (n : Nat) :
    timePatternAt (hoursAgoStr n) = some (n, sl r"hour") := by
  simp only [timePatternAt, hoursAgoStr_take, hoursAgoStr_drop, natChars_isEmpty n,
    Bool.false_eq_true, if_false, digitsToNat_natChars]
  have hf : firstPrefixCI timeUnitAlts ((' ' :: sl r"hours ago").dropWhile isSpaceChar) =
      some (sl r"hour") := rfl
  rw [hf]

theorem hoursAgoAt_numeral (n : Nat) : hoursAgoAt (hoursAgoStr n) = some n := by
  simp only [hoursAgoAt, hoursAgoStr_take, hoursAgoStr_drop, natChars_isEmpty n,
    Bool.false_eq_true, if_false, digitsToNat_natChars]
  have hf : altThenAgo [sl r"hour", sl r"hours"] ((' ' :: sl r"hours ago").dropWhile isSpaceChar) =
      true := rfl
  rw [hf]
  rfl

theorem scanFor_pos {α : Type} (att : List Char → Option α) {s : List Char} {v : α}
    (hne : s ≠ []) (h : att s = some v) : scanFor att s = some v := by
  cases s with
  | nil => exact absurd rfl hne
  | cons c rest =>
    rw [scanFor, h]

theorem hoursAgoStr_ne_nil (n : Nat) : hoursAgoStr n ≠ [] := by
  unfold hoursAgoStr
  obtain ⟨d0, ds, h⟩ := List.exists_cons_of_ne_nil (natChars_ne_nil n)
  rw [h]
  simp

theorem scanTimePattern_numeral (n : Nat) :
    scanTimePattern (hoursAgoStr n) = some (n, sl r"hour") :=
  scanFor_pos timePatternAt (hoursAgoStr_ne_nil n) (timePatternAt_numeral n)

theorem scanHoursAgo_numeral (n : Nat) : scanHoursAgo (hoursAgoStr n) = some n :=
  scanFor_pos hoursAgoAt (hoursAgoStr_ne_nil n) (hoursAgoAt_numeral n)

/-- Characters of `"<n> hours ago"` are digits or members of the literal tail. -/
theorem hoursAgoStr_lower (n : Nat) : lowerStr (hoursAgoStr n) = hoursAgoStr n := by
  apply lowerStr_eq_self
  intro c hc
  rcases List.mem_append.mp hc with h1 | h1
  · exact (digit_facts (natChars_all_digits n c h1)).1
  · fin_cases h1 <;> decide

theorem hoursAgoStr_no_d (n : Nat) : ∀ c ∈ hoursAgoStr n, toLowerChar c ≠ 'd' := by
  intro c hc
  rcases List.mem_append.mp hc with h1 | h1
  · have hd := natChars_all_digits n c h1
    rw [(digit_facts hd).1]
    exact digit_ne hd (by decide)
  · fin_cases h1 <;> decide

/-- Computation law: on a literal `"<n> hours ago"` input the classifier
reaches the hour branch of the time pattern and compares the amount against
the window. -/
theorem isLikelyRecent_hours (pd : List Char → Option Int) (nowMs : Int)
    (todayStr : List Char) (n W : Nat) :
    isLikelyRecent pd nowMs todayStr (hoursAgoStr n) W = decide (n ≤ W) := by
  have hblank : (hoursAgoStr n).all isSpaceChar = false :=
    all_eq_false_of_mem (c := 'h')
      (List.mem_append.mpr (Or.inr (by decide))) (by decide)
  have hlower := hoursAgoStr_lower n
  have hcontains : containsSub (hoursAgoStr n) (sl r"hours ago") = true :=
    containsSub_append_left (natChars n) (by decide)
  have hkw : recentTimeKeywords.any (fun k => containsSub (hoursAgoStr n) k) = true :=
    List.any_eq_true.mpr ⟨sl r"hours ago", by decide, hcontains⟩
  have hdays : containsSub (hoursAgoStr n) (sl r"days ago") = false :=
    containsSub_eq_false (c := 'd') (by decide)
      (not_mem_numeral_append n (by decide) (by decide))
  have hyest : containsSub (hoursAgoStr n) (sl r"yesterday") = false :=
    containsSub_eq_false (c := 'y') (by decide)
      (not_mem_numeral_append n (by decide) (by decide))
  have hscanD : scanDaysAgo (hoursAgoStr n) = none := scanDaysAgo_eq_none (hoursAgoStr_no_d n)
  simp only [isLikelyRecent, hblank, Bool.false_eq_true, if_false, hlower, hkw, hdays,
    hcontains, Bool.not_false, Bool.true_and, Bool.true_or, if_true,
    isLikelyRecentRest, hscanD, hyest, scanTimePattern_numeral n]
  split
  · rfl
  · rename_i hcond
    exact absurd (by decide) hcond

theorem isEmpty_false_of_ne_nil {α : Type} {l : List α} (h : l ≠ []) : l.isEmpty = false := by
  cases l with
  | nil => exact absurd rfl h
  | cons a t => rfl

theorem isNewer_hours (pd : List Char → Option Int) (a b : Nat) :
    isNewer pd (some (hoursAgoStr a)) (some (hoursAgoStr b)) = decide (a < b) := by
  rw [isNewer]
  rw [isEmpty_false_of_ne_nil (hoursAgoStr_ne_nil a), isEmpty_false_of_ne_nil (hoursAgoStr_ne_nil b)]
  simp only [Bool.false_eq_true, if_false, isNewerBody,
    scanDaysAgo_eq_none (hoursAgoStr_no_d a), scanDaysAgo_eq_none (hoursAgoStr_no_d b),
    scanHoursAgo_numeral a, scanHoursAgo_numeral b]

theorem alLookup_none_not_mem {K V : Type} [DecidableEq K] {m : List (K × V)} {k : K}
    (h : alLookup m k = none) : k ∉ m.map Prod.fst := by
  induction m with
  | nil => simp
  | cons p rest ih =>
    obtain ⟨k', v'⟩ := p
    rw [alLookup] at h
    by_cases hk : k' = k
    · rw [if_pos hk] at h
      exact absurd h (by simp)
    · rw [if_neg hk] at h
      simp only [List.map_cons, List.mem_cons]
      rintro (h1 | h1)
      · exact hk h1.symm
      · exact ih h h1

theorem alSet_of_lookup_none {K V : Type} [DecidableEq K] {m : List (K × V)} {k : K} (v : V)
    (h : alLookup m k = none) : alSet m k v = m ++ [(k, v)] := by
  induction m with
  | nil => rfl
  | cons p rest ih =>
    obtain ⟨k', v'⟩ := p
    rw [alLookup] at h
    by_cases hk : k' = k
    · rw [if_pos hk] at h
      exact absurd h (by simp)
    · rw [if_neg hk] at h
      rw [alSet, if_neg hk, ih h]
      rfl

theorem alSet_map_fst_of_lookup_some {K V : Type} [DecidableEq K] {m : List (K × V)} {k : K}
    {w : V} (v : V) (h : alLookup m k = some w) :
    (alSet m k v).map Prod.fst = m.map Prod.fst := by
  induction m with
  | nil => simp [alLookup] at h
  | cons p rest ih =>
    obtain ⟨k', v'⟩ := p
    rw [alLookup] at h
    by_cases hk : k' = k
    · rw [alSet, if_pos hk]
      simp
    · rw [if_neg hk] at h
      rw [alSet, if_neg hk]
      simp only [List.map_cons]
      rw [ih h]

theorem mem_alSet {K V : Type} [DecidableEq K] {m : List (K × V)} {k : K} {v : V}
    {p : K × V} (h : p ∈ alSet m k v) : p = (k, v) ∨ p ∈ m := by
  induction m with
  | nil => simpa [alSet] using h
  | cons q rest ih =>
    obtain ⟨k', v'⟩ := q
    rw [alSet] at h
    by_cases hk : k' = k
    · rw [if_pos hk] at h
      rcases List.mem_cons.mp h with h1 | h1
      · subst hk
        exact Or.inl h1
      · exact Or.inr (List.mem_cons_of_mem _ h1)
    · rw [if_neg hk] at h
      rcases List.mem_cons.mp h with h1 | h1
      · exact Or.inr (by simp [h1])
      · rcases ih h1 with h2 | h2
        · exact Or.inl h2
        · exact Or.inr (List.mem_cons_of_mem _ h2)

theorem dedupStep_inv (pd : List Char → Option Int) (story : Story)
    {m : List (List Char × Story)} (h : DedupInv m) : DedupInv (dedupStep pd m story) := by
  obtain ⟨hent, hnd⟩ := h
  rw [dedupStep]
  rcases hl : alLookup m (domainKey story.link) with _ | prev
  · rw [alSet_of_lookup_none _ hl]
    constructor
    · intro p hp
      rcases List.mem_append.mp hp with h1 | h1
      · exact hent p h1
      · simp at h1
        subst h1
        rfl
    · rw [List.map_append]
      rw [List.nodup_append]
      refine ⟨hnd, by simp, ?_⟩
      intro a ha hb
      simp at hb
      subst hb
      exact alLookup_none_not_mem hl ha
  · change DedupInv (if isNewer pd (some story.date_posted) (some prev.date_posted) = true
      then alSet m (domainKey story.link) story else m)
    by_cases hn : isNewer pd (some story.date_posted) (some prev.date_posted) = true
    · rw [if_pos hn]
      constructor
      · intro p hp
        rcases mem_alSet hp with h1 | h1
        · subst h1
          rfl
        · exact hent p h1
      · rw [alSet_map_fst_of_lookup_some _ hl]
        exact hnd
    · rw [if_neg hn]
      exact ⟨hent, hnd⟩

theorem storyBySourceFold_inv (pd : List Char → Option Int) (stories : List Story) :
    DedupInv (storyBySourceFold pd stories) := by
  rw [storyBySourceFold]
  have hgen : ∀ (l : List Story) (m : List (List Char × Story)), DedupInv m →
      DedupInv (l.foldl (dedupStep pd) m) := by
    intro l
    induction l with
    | nil => intro m hm; exact hm
    | cons s rest ih =>
      intro m hm
      exact ih (dedupStep pd m s) (dedupStep_inv pd s hm)
  exact hgen stories [] ⟨by simp, by simp⟩

/-- Output of the dedup never holds two stories of the same normalized
domain. -/
theorem dedupBySource_pairwise (pd : List Char → Option Int) (stories : List Story) :
    (dedupBySource pd stories).Pairwise (fun s t => domainKey s.link ≠ domainKey t.link) := by
  obtain ⟨hent, hnd⟩ := storyBySourceFold_inv pd stories
  have hmap : (storyBySourceFold pd stories).map Prod.fst
      = (storyBySourceFold pd stories).map (fun p => domainKey p.2.link) :=
    List.map_congr_left (fun p hp => hent p hp)
  rw [hmap] at hnd
  rw [dedupBySource, List.pairwise_map]
  rw [List.Nodup, List.pairwise_map] at hnd
  exact hnd

/-- Two same-domain stories: the dedup loop keeps the second exactly when
the comparator reports its date newer than the first's. -/
theorem dedupBySource_pair (pd : List Char → Option Int) (sA sB : Story)
    (hdom : domainKey sB.link = domainKey sA.link) :
    dedupBySource pd [sA, sB]
      = if isNewer pd (some sB.date_posted) (some sA.date_posted) = true then [sB] else [sA] := by
  rw [dedupBySource, storyBySourceFold, List.foldl_cons, List.foldl_cons, List.foldl_nil]
  have hstep1 : dedupStep pd [] sA = [(domainKey sA.link, sA)] := rfl
  rw [hstep1]
  by_cases hn : isNewer pd (some sB.date_posted) (some sA.date_posted) = true
  · simp [dedupStep, hdom, alLookup, alSet, hn]
  · simp [dedupStep, hdom, alLookup, alSet, hn]

theorem emergencyJson_has_keys (raw : List Char) :
    hasAllExpectedKeys (emergencyJson raw) = true := rfl

theorem foldl_best_mem (l : List (List Char × Nat)) (init : List Char × Nat) :
    (l.foldl (fun best p => if p.2 > best.2 then p else best) init).1
      ∈ init.1 :: l.map Prod.fst := by
  induction l generalizing init with
  | nil => simp
  | cons p rest ih =>
    rw [List.foldl_cons]
    by_cases hc : p.2 > init.2
    · rw [if_pos hc]
      rcases List.mem_cons.mp (ih p) with h1 | h1
      · rw [h1]
        simp
      · simp only [List.map_cons, List.mem_cons]
        right
        right
        exact h1
    · rw [if_neg hc]
      rcases List.mem_cons.mp (ih init) with h1 | h1
      · rw [h1]
        simp
      · simp only [List.map_cons, List.mem_cons]
        right
        right
        exact h1

theorem classifyByKeywords_mem (content : List Char) :
    classifyByKeywords content ∈ validCategories := by
  have h := foldl_best_mem
    (categoryKeywordTable.map
      (fun p => (p.1, (p.2.map (fun k => countOccurCI k (lowerStr content))).sum)))
    (sl r"연구 동향", 0)
  rw [List.map_map] at h
  have hk : (categoryKeywordTable.map
      (Prod.fst ∘ fun p => (p.1, (p.2.map (fun k => countOccurCI k (lowerStr content))).sum)))
      = validCategories := rfl
  rw [hk] at h
  have hcl : classifyByKeywords content
      = ((categoryKeywordTable.map
          (fun p => (p.1, (p.2.map (fun k => countOccurCI k (lowerStr content))).sum)))
          |>.foldl (fun best p => if p.2 > best.2 then p else best) (sl r"연구 동향", 0)).1 := rfl
  rw [hcl]
  rcases List.mem_cons.mp h with h1 | h1
  · rw [h1]
    decide
  · exact h1

theorem alLookup_alSet_self {K V : Type} [DecidableEq K] (m : List (K × V)) (k : K) (v : V) :
    alLookup (alSet m k v) k = some v := by
  induction m with
  | nil => simp [alSet, alLookup]
  | cons p rest ih =>
    obtain ⟨k', v'⟩ := p
    rw [alSet]
    by_cases hk : k' = k
    · rw [if_pos hk, alLookup, if_pos hk]
    · rw [if_neg hk, alLookup, if_neg hk]
      exact ih

theorem alLookup_eq_none_of_not_mem {K V : Type} [DecidableEq K] {m : List (K × V)} {k : K}
    (h : k ∉ m.map Prod.fst) : alLookup m k = none := by
  induction m with
  | nil => rfl
  | cons p rest ih =>
    obtain ⟨k', v'⟩ := p
    rw [alLookup]
    by_cases hk : k' = k
    · exact absurd (by simp [hk]) h
    · rw [if_neg hk]
      exact ih (fun hm => h (by simp [hm]))

theorem alLookup_alErase_self {K V : Type} [DecidableEq K] {m : List (K × V)} {k : K}
    (h : (m.map Prod.fst).Nodup) : alLookup (alErase m k) k = none := by
  induction m with
  | nil => rfl
  | cons p rest ih =>
    obtain ⟨k', v'⟩ := p
    rw [List.map_cons, List.nodup_cons] at h
    rw [alErase]
    by_cases hk : k' = k
    · rw [if_pos hk]
      subst hk
      exact alLookup_eq_none_of_not_mem h.1
    · rw [if_neg hk, alLookup, if_neg hk]
      exact ih h.2

theorem alSet_map_fst_nodup {K V : Type} [DecidableEq K] {m : List (K × V)} (k : K) (v : V)
    (h : (m.map Prod.fst).Nodup) : ((alSet m k v).map Prod.fst).Nodup := by
  rcases hl : alLookup m k with _ | w
  · rw [alSet_of_lookup_none _ hl, List.map_append]
    rw [List.nodup_append]
    refine ⟨h, by simp, ?_⟩
    intro a ha hb
    simp at hb
    subst hb
    exact alLookup_none_not_mem hl ha
  · rw [alSet_map_fst_of_lookup_some _ hl]
    exact h

/-! ### The claims -/

/-- C1, counterexample: the input `"{}"` is valid JSON, so the ladder
returns it from the direct parse — an object with none of the expected field
keys.  The all-keys guarantee therefore does not hold for every raw LLM
response string. -/
theorem claim_c1_counterexample :
    ladderParse (sl "\x7b\x7d") = Json.obj [] ∧
    hasAllExpectedKeys (ladderParse (sl "\x7b\x7d")) = false := ⟨rfl, rfl⟩

/-- C1 (amended): the repair ladder is a total function of the raw response
(never raises, by construction mirroring the source's try/catch nesting),
and its result is either the successful JSON parse of the raw text or of one
of its repaired variants — which need not contain the expected keys — or the
emergency object, which always contains every expected field key. -/
theorem claim_c1_total_with_emergency_keys (raw : List Char) :
    (∃ s, jsonParse s = some (ladderParse raw)) ∨
      hasAllExpectedKeys (ladderParse raw) = true := by
  rcases h0 : jsonParse raw with _ | j
  · rcases h1 : firstIdxOf '{' raw with _ | i
    · right
      have hl : ladderParse raw = emergencyJson raw := by
        simp [ladderParse, h0, h1]
      rw [hl]
      exact emergencyJson_has_keys raw
    · rcases h2 : lastIdxOf '}' raw with _ | j2
      · right
        have hl : ladderParse raw = emergencyJson raw := by
          simp [ladderParse, h0, h1, h2]
        rw [hl]
        exact emergencyJson_has_keys raw
      · by_cases h3 : i < j2 + 1
        · rcases h4 : jsonParse (fixBrokenUrls ((raw.drop i).take (j2 + 1 - i))) with _ | jv
          · rcases h5 : jsonParse (cleanJson (fixBrokenUrls ((raw.drop i).take (j2 + 1 - i)))) with _ | jv2
            · right
              have hl : ladderParse raw = emergencyJson raw := by
                simp [ladderParse, h0, h1, h2, h3, h4, h5]
              rw [hl]
              exact emergencyJson_has_keys raw
            · left
              have hl : ladderParse raw = jv2 := by
                simp [ladderParse, h0, h1, h2, h3, h4, h5]
              exact ⟨cleanJson (fixBrokenUrls ((raw.drop i).take (j2 + 1 - i))), by rw [hl, h5]⟩
          · left
            have hl : ladderParse raw = jv := by
              simp [ladderParse, h0, h1, h2, h3, h4]
            exact ⟨fixBrokenUrls ((raw.drop i).take (j2 + 1 - i)), by rw [hl, h4]⟩
        · right
          have hl : ladderParse raw = emergencyJson raw := by
            simp [ladderParse, h0, h1, h2, h3]
          rw [hl]
          exact emergencyJson_has_keys raw
  · left
    have hl : ladderParse raw = j := by
      simp [ladderParse, h0]
    exact ⟨raw, by rw [hl, h0]⟩

/-- C2, counterexample: with the clock at 2026-01-15T12:00Z, the dates
`"3 hours ago"` and `"2026-01-14"` (36 hours old) are both recent for a 48 h
window, yet `isNewer` reports each as newer than the other (the cross-unit
branches only fire when the first date has a relative pattern, the absolute
comparison needs both dates parseable, and the final fallback is
`return true`).  With input order [relative, absolute] the dedup therefore
keeps the absolute-dated story — the less recent one — even though the
comparator itself ranks the 3-hours story newer. -/
theorem claim_c2_counterexample :
    isLikelyRecent jsDateParseIso 1768478400000 (sl r"2026-01-15") (sl r"3 hours ago") 48
      = true ∧
    isLikelyRecent jsDateParseIso 1768478400000 (sl r"2026-01-15") (sl r"2026-01-14") 48
      = true ∧
    domainKey (sl r"https://a.com/1") = domainKey (sl r"https://a.com/2") ∧
    isNewer jsDateParseIso (some (sl r"3 hours ago")) (some (sl r"2026-01-14")) = true ∧
    isNewer jsDateParseIso (some (sl r"2026-01-14")) (some (sl r"3 hours ago")) = true ∧
    dynamicFilterDedup jsDateParseIso 1768478400000 (sl r"2026-01-15") 48
      [{ headline := sl r"hr", link := sl r"https://a.com/1", date_posted := sl r"3 hours ago" },
       { headline := sl r"abs", link := sl r"https://a.com/2", date_posted := sl r"2026-01-14" }]
      = [{ headline := sl r"abs", link := sl r"https://a.com/2",
           date_posted := sl r"2026-01-14" }] := by
  refine ⟨by decide, by decide, by decide, by decide, by decide, ?_⟩
  rfl

/-- C2 (amended): the aggregator's per-domain dedup (dynamic branch) never
outputs two stories of the same normalized domain; and when two recent
same-domain stories have dates the relative-rank comparator orders
consistently — it reports one newer than the other and not conversely — the
comparator-newer story is exactly the one that appears, regardless of input
order.  When the comparator cannot order the pair (it reports each side as
newer, e.g. a relative date against an absolute one), the survivor depends
on input order and may be the less recent story. -/
theorem claim_c2_domain_dedup :
    (∀ (pd : List Char → Option Int) (nowMs : Int) (todayStr : List Char) (W : Nat)
        (crawlResults : List Story),
      (dynamicFilterDedup pd nowMs todayStr W crawlResults).Pairwise
        (fun s t => domainKey s.link ≠ domainKey t.link)) ∧
    (∀ (pd : List Char → Option Int) (nowMs : Int) (todayStr : List Char) (W : Nat)
        (s1 s2 : Story),
      isLikelyRecent pd nowMs todayStr s1.date_posted W = true →
      isLikelyRecent pd nowMs todayStr s2.date_posted W = true →
      domainKey s2.link = domainKey s1.link →
      isNewer pd (some s1.date_posted) (some s2.date_posted) = true →
      isNewer pd (some s2.date_posted) (some s1.date_posted) = false →
      dynamicFilterDedup pd nowMs todayStr W [s1, s2] = [s1] ∧
      dynamicFilterDedup pd nowMs todayStr W [s2, s1] = [s1]) := by
  constructor
  · intro pd nowMs todayStr W crawlResults
    exact dedupBySource_pairwise pd _
  · intro pd nowMs todayStr W s1 s2 f1 f2 hdom h12 h21
    have hfil12 : dynamicFilterDedup pd nowMs todayStr W [s1, s2]
        = dedupBySource pd [s1, s2] := by
      rw [dynamicFilterDedup]
      congr 1
      simp [List.filter, f1, f2]
    have hfil21 : dynamicFilterDedup pd nowMs todayStr W [s2, s1]
        = dedupBySource pd [s2, s1] := by
      rw [dynamicFilterDedup]
      congr 1
      simp [List.filter, f1, f2]
    constructor
    · rw [hfil12, dedupBySource_pair pd s1 s2 hdom, h21]
      simp
    · rw [hfil21, dedupBySource_pair pd s2 s1 hdom.symm, h12]
      simp

/-- C2 witness: two same-host stories dated 1 and 5 hours ago, both inside a
48 h window; the comparator orders them consistently, and the 1-hour-old one
survives in either input order. -/
theorem claim_c2_witness :
    dynamicFilterDedup jsDateParseIso 0 [] 48
      [{ headline := sl r"one", link := sl r"https://a.com/1", date_posted := sl r"1 hours ago" },
       { headline := sl r"two", link := sl r"https://a.com/blog/2", date_posted := sl r"5 hours ago" }]
      = [{ headline := sl r"one", link := sl r"https://a.com/1", date_posted := sl r"1 hours ago" }] ∧
    dynamicFilterDedup jsDateParseIso 0 [] 48
      [{ headline := sl r"two", link := sl r"https://a.com/blog/2", date_posted := sl r"5 hours ago" },
       { headline := sl r"one", link := sl r"https://a.com/1", date_posted := sl r"1 hours ago" }]
      = [{ headline := sl r"one", link := sl r"https://a.com/1", date_posted := sl r"1 hours ago" }] := by
  exact claim_c2_domain_dedup.2 jsDateParseIso 0 [] 48
    { headline := sl r"one", link := sl r"https://a.com/1", date_posted := sl r"1 hours ago" }
    { headline := sl r"two", link := sl r"https://a.com/blog/2", date_posted := sl r"5 hours ago" }
    (by decide) (by decide) (by decide) (by decide) (by decide)

/-- C3, counterexample: with the clock at 2026-01-15, the parseable date
`"2999-01-01"` lies about 973 years (more than a million hours) in the
future, yet the classifier calls it recent for a 48 h window: step 7 has no
lower bound on `hoursDiff`. -/
theorem claim_c3_counterexample :
    isLikelyRecent jsDateParseIso 1768435200000 (sl r"2026-01-15") (sl r"2999-01-01") 48 = true ∧
    jsDateParseIso (sl r"2999-01-01") = some 32472144000000 ∧
    (1768435200000 : Int) - 32472144000000 < (-1000000 : Int) * 3600000 := by
  refine ⟨by decide, by decide, by decide⟩

/-- C3 (amended): for a date string none of the keyword or relative-time
rules match, a successful absolute parse decides recency by
`hoursDiff ≤ windowHours` alone — there is no lower bound, so any parseable
future date (arbitrarily far) is classified recent. -/
theorem claim_c3_absolute_no_lower_bound (pd : List Char → Option Int) (nowMs t : Int)
    (todayStr dateString : List Char) (W : Nat)
    (hblank : dateString.all isSpaceChar = false)
    (hkw : recentTimeKeywords.any (fun k => containsSub (lowerStr dateString) k) = false)
    (hdays : scanDaysAgo (lowerStr dateString) = none)
    (hyest : containsSub (lowerStr dateString) (sl r"yesterday") = false)
    (htime : scanTimePattern (lowerStr dateString) = none)
    (hold : oldKeywords.any (fun k => containsSub (lowerStr dateString) k) = false)
    (htoday : containsSub (lowerStr dateString) todayStr = false)
    (hparse : pd dateString = some t) :
    isLikelyRecent pd nowMs todayStr dateString W
      = decide (nowMs - t ≤ (W : Int) * 3600000) := by
  simp only [isLikelyRecent, hblank, Bool.false_eq_true, if_false, hkw,
    isLikelyRecentRest, hdays, hyest, htime, isLikelyRecentTail, hold, htoday, hparse]

/-- C3 witness for the amended law, at the counterexample's concrete input. -/
theorem claim_c3_witness :
    isLikelyRecent jsDateParseIso 1768435200000 (sl r"2026-01-15") (sl r"2999-01-01") 48
      = decide ((1768435200000 : Int) - 32472144000000 ≤ (48 : Int) * 3600000) := by
  exact claim_c3_absolute_no_lower_bound jsDateParseIso 1768435200000 32472144000000
    (sl r"2026-01-15") (sl r"2999-01-01") 48 (by decide) (by decide) (by decide) (by decide)
    (by decide) (by decide) (by decide) (by decide)

/-- C4: a relative date `"<n> hours ago"` is classified recent exactly when
`n ≤ windowHours`; the boundary `n = windowHours` is inclusive. -/
theorem claim_c4_hour_unit_window (pd : List Char → Option Int) (nowMs : Int)
    (todayStr : List Char) (n W : Nat) :
    isLikelyRecent pd nowMs todayStr (hoursAgoStr n) W = true ↔ n ≤ W := by
  rw [isLikelyRecent_hours]
  exact decide_eq_true_iff

/-- C5, counterexample: on an empty raw response the emergency object's
category is the hardcoded `"개발자 도구"`, not the Category Classifier's
result over the (empty) recovered text, which is `"연구 동향"`. -/
theorem claim_c5_counterexample :
    (createEmergencyStory []).category = sl r"개발자 도구" ∧
    getCategoryFromContent Option.none [] = sl r"연구 동향" ∧
    sl r"개발자 도구" ≠ sl r"연구 동향" := ⟨rfl, by decide, by decide⟩

/-- C5 (amended): whenever the category regex recovers no member of the
valid set, `createEmergencyResponse` falls back to the hardcoded string
`"개발자 도구"`; the Category Classifier is not consulted (that behaviour
exists only in the `part_006` pipeline variant). -/
theorem claim_c5_hardcoded_fallback (raw : List Char)
    (h : ∀ c, scanField (sl r"category") raw = some c → c ∉ validCategories) :
    (createEmergencyStory raw).category = sl r"개발자 도구" := by
  rcases hc : scanField (sl r"category") raw with _ | c
  · simp [createEmergencyStory, hc, defaultEmergencyStory]
  · have hnv : c ∉ validCategories := h c hc
    by_cases he : c.isEmpty
    · simp [createEmergencyStory, hc, he, defaultEmergencyStory]
    · simp [createEmergencyStory, hc, he, hnv]

/-- C5 witness: the amended law at the empty raw response. -/
theorem claim_c5_witness : (createEmergencyStory []).category = sl r"개발자 도구" := by
  exact claim_c5_hardcoded_fallback []
    (fun c hc => by simp [scanField, scanFor] at hc)

/-- C6: after `set(k, v, ttl)` with `ttl > 0` a `get` at the same instant
returns `v`; a `get` after the expiry instant returns absent and deletes the
entry; and in general a `get` never returns the value of an expired entry.
The digest `hash` is arbitrary; the `Nodup` hypothesis is the JS `Map`
key-uniqueness invariant. -/
theorem claim_c6_cache_roundtrip (V : Type) (hash : String → String)
    (st : List (String × CacheItem V)) (key : String) (v : V) (ttl now later : Int)
    (httl : 0 < ttl) (hnd : (st.map Prod.fst).Nodup) :
    (cacheGet hash (cacheSet hash st key v ttl now) key now).1 = some v ∧
    (now + ttl < later →
      (cacheGet hash (cacheSet hash st key v ttl now) key later).1 = none ∧
      alLookup (cacheGet hash (cacheSet hash st key v ttl now) key later).2 (hash key)
        = none) ∧
    (∀ (st' : List (String × CacheItem V)) (k' : String) (now' : Int) (v' : V),
      (cacheGet hash st' k' now').1 = some v' →
      ∃ item, alLookup st' (hash k') = some item ∧ ¬ item.expiry < now' ∧ item.value = v') := by
  have hl : alLookup (cacheSet hash st key v ttl now) (hash key)
      = some ⟨v, now + ttl⟩ := alLookup_alSet_self st (hash key) ⟨v, now + ttl⟩
  refine ⟨?_, ?_, ?_⟩
  · simp [cacheGet, hl, show ¬ (now + ttl < now) from by omega]
  · intro hlater
    have hndset : ((cacheSet hash st key v ttl now).map Prod.fst).Nodup :=
      alSet_map_fst_nodup _ _ hnd
    constructor
    · simp [cacheGet, hl, hlater]
    · simp [cacheGet, hl, hlater, alLookup_alErase_self hndset]
  · intro st' k' now' v' hres
    rcases hlk : alLookup st' (hash k') with _ | item
    · rw [cacheGet] at hres
      simp [hlk] at hres
    · by_cases hexp : item.expiry < now'
      · rw [cacheGet] at hres
        simp [hlk, hexp] at hres
      · refine ⟨item, rfl, hexp, ?_⟩
        rw [cacheGet] at hres
        simp [hlk, hexp] at hres
        exact hres

/-- C6 witness. -/
theorem claim_c6_witness :
    (cacheGet id (cacheSet id ([] : List (String × CacheItem JsValue)) (r"k") (JsValue.num 7) 10 0)
        (r"k") 0).1 = some (JsValue.num 7) ∧
    (cacheGet id (cacheSet id ([] : List (String × CacheItem JsValue)) (r"k") (JsValue.num 7) 10 0)
        (r"k") 100).1 = none := by
  have h := claim_c6_cache_roundtrip JsValue id [] (r"k") (JsValue.num 7) 10 0 100
    (by decide) (by simp)
  exact ⟨h.1, (h.2.1 (by decide)).1⟩

/-- C7 (amended): when a record with the same story key already exists,
`storeFullContent` performs no insert (the table state is unchanged) and
returns the existing record's id — but the reported method is always
`database`, assumed rather than read back, even when the record was actually
stored through the storage bucket. -/
theorem claim_c7_idempotent_assumed_database (env : StoreEnv) (rows : List ContentRow)
    (sid headline content : List Char) (row : ContentRow)
    (hconf : env.configured = true)
    (hcontent : content.all isSpaceChar = false)
    (hfound : findByStoryId rows sid = some row) :
    storeFullContent env rows sid headline content
      = ({ storyId := sid, id := some row.id, method := StorageMethod.database }, rows) := by
  simp [storeFullContent, hconf, hcontent, hfound]

/-- C7, counterexample: a record held in the storage bucket (method
`storage`) is answered on a retry with method `database`, so the second
attempt does not return the existing record's method. -/
theorem claim_c7_counterexample :
    rowMethod
      { id := sl r"r1", story_id := sl r"k1", headline := some (sl r"h"),
        content_full := Option.none, storage_path := some (sl r"articles/k1/content.md"),
        content_length := some 600000, created_at := sl r"t" } = StorageMethod.storage ∧
    (storeFullContent
      { configured := true, freshId := sl r"f1", insertOk := true, uploadOk := true,
        nowIso := sl r"t2" }
      [{ id := sl r"r1", story_id := sl r"k1", headline := some (sl r"h"),
         content_full := Option.none, storage_path := some (sl r"articles/k1/content.md"),
         content_length := some 600000, created_at := sl r"t" }]
      (sl r"k1") (sl r"h") (sl r"body")).1.method = StorageMethod.database ∧
    StorageMethod.database ≠ StorageMethod.storage := by
  refine ⟨rfl, rfl, by decide⟩

/-- C7 witness for the amended idempotency law. -/
theorem claim_c7_witness :
    storeFullContent
      { configured := true, freshId := sl r"f1", insertOk := true, uploadOk := true,
        nowIso := sl r"t2" }
      [{ id := sl r"r1", story_id := sl r"k1", headline := Option.none,
         content_full := some (sl r"text"), storage_path := Option.none,
         content_length := some 4, created_at := sl r"t" }]
      (sl r"k1") (sl r"h") (sl r"body")
      = ({ storyId := sl r"k1", id := some (sl r"r1"), method := StorageMethod.database },
         [{ id := sl r"r1", story_id := sl r"k1", headline := Option.none,
            content_full := some (sl r"text"), storage_path := Option.none,
            content_length := some 4, created_at := sl r"t" }]) := by
  exact claim_c7_idempotent_assumed_database
    { configured := true, freshId := sl r"f1", insertOk := true, uploadOk := true,
      nowIso := sl r"t2" }
    [{ id := sl r"r1", story_id := sl r"k1", headline := Option.none,
       content_full := some (sl r"text"), storage_path := Option.none,
       content_length := some 4, created_at := sl r"t" }]
    (sl r"k1") (sl r"h") (sl r"body")
    { id := sl r"r1", story_id := sl r"k1", headline := Option.none,
      content_full := some (sl r"text"), storage_path := Option.none,
      content_length := some 4, created_at := sl r"t" }
    (by decide) (by decide) rfl

/-- C8, counterexample: `"garbage"` matches no relative pattern and does not
parse as a date, while `"3 hours ago"` carries a parseable hour amount — yet
the comparator reports the unparseable first date as newer. -/
theorem claim_c8_counterexample :
    isNewer jsDateParseIso (some (sl r"garbage")) (some (sl r"3 hours ago")) = true ∧
    scanHoursAgo (sl r"3 hours ago") = some 3 ∧
    scanDaysAgo (sl r"garbage") = none ∧
    scanHoursAgo (sl r"garbage") = none ∧
    scanMinsAgo (sl r"garbage") = none ∧
    jsDateParseIso (sl r"garbage") = none := by
  refine ⟨by decide, by decide, by decide, by decide, by decide, by decide⟩

/-- C8 (amended): an empty or missing first date ranks worst (`isNewer`
returns `false`), but a non-empty first date that matches no relative
pattern and fails the absolute parse is reported newer than every second
date — the comparator prefers its first argument whenever it cannot
compare. -/
theorem claim_c8_unparseable_first_wins (pd : List Char → Option Int)
    (d1 : List Char) (d2 : Option (List Char))
    (hne : d1 ≠ [])
    (hdays : scanDaysAgo d1 = none) (hhours : scanHoursAgo d1 = none)
    (hmins : scanMinsAgo d1 = none) (hpd : pd d1 = none) :
    isNewer pd (some d1) d2 = true := by
  have hne' : d1.isEmpty = false := isEmpty_false_of_ne_nil hne
  rcases d2 with _ | d2'
  · simp [isNewer, hne']
  · by_cases h2 : d2'.isEmpty
    · simp [isNewer, hne', h2]
    · simp [isNewer, hne', h2, isNewerBody, hdays, hhours, hmins, hpd]

/-- C8 witness for the amended law. -/
theorem claim_c8_witness :
    isNewer jsDateParseIso (some (sl r"zzz")) (some (sl r"7 hours ago")) = true := by
  exact claim_c8_unparseable_first_wins jsDateParseIso (sl r"zzz") (some (sl r"7 hours ago"))
    (by decide) (by decide) (by decide) (by decide) (by decide)

/-- C9: a valid existing label passes through the classifier unchanged, and
re-classifying a classifier output is the identity (the keyword scorer only
ever returns members of the valid set). -/
theorem claim_c9_passthrough_idempotent (t L : List Char) (hL : L ∈ validCategories) :
    getCategoryFromContent (some L) t = L ∧
    getCategoryFromContent (some (getCategoryFromContent Option.none t)) t
      = getCategoryFromContent Option.none t := by
  have hpass : ∀ L', L' ∈ validCategories → getCategoryFromContent (some L') t = L' := by
    intro L' hL'
    have hne : L'.isEmpty = false := by
      fin_cases hL' <;> decide
    simp only [getCategoryFromContent]
    rw [if_pos ⟨hne, hL'⟩]
  refine ⟨hpass L hL, ?_⟩
  have hmem : getCategoryFromContent Option.none t ∈ validCategories := by
    simp only [getCategoryFromContent]
    exact classifyByKeywords_mem t
  exact hpass _ hmem

/-- C9 witness. -/
theorem claim_c9_witness :
    getCategoryFromContent (some (sl r"시장 동향")) [] = sl r"시장 동향" ∧
    getCategoryFromContent (some (getCategoryFromContent Option.none [])) []
      = getCategoryFromContent Option.none [] := by
  exact claim_c9_passthrough_idempotent [] (sl r"시장 동향") (by decide)

/-- C10: a present, unexpired entry holding a falsy value (0, empty string,
`false`, `null`) is surfaced by `ApiCache.get` but swallowed by
`getCacheItem`'s `||` fallback, which yields the default instead. -/
theorem claim_c10_falsy_cached_value_dropped (hash : String → String)
    (st : List (String × CacheItem JsValue)) (key : String) (v dflt : JsValue) (e now : Int)
    (hstored : alLookup st (hash key) = some ⟨v, e⟩)
    (hunexpired : ¬ e < now)
    (hfalsy : truthy v = false) :
    (getCacheItem hash st key dflt now).1 = dflt ∧
    (cacheGet hash st key now).1 = some v := by
  have hget : (cacheGet hash st key now).1 = some v := by
    simp [cacheGet, hstored, hunexpired]
  refine ⟨?_, hget⟩
  simp [getCacheItem, hget, hfalsy]

/-- C10 witness: cached `0` with a live entry — `getCacheItem` returns the
default while `ApiCache.get` returns the stored `0`. -/
theorem claim_c10_witness :
    (getCacheItem id [((r"k" : String), ⟨JsValue.num 0, 10⟩)] (r"k") (JsValue.num 42) 5).1
      = JsValue.num 42 ∧
    (cacheGet id [((r"k" : String), ⟨JsValue.num 0, 10⟩)] (r"k") 5).1
      = some (JsValue.num 0) := by
  exact claim_c10_falsy_cached_value_dropped id [((r"k" : String), ⟨JsValue.num 0, 10⟩)]
    (r"k") (JsValue.num 0) (JsValue.num 42) 10 5 rfl (by decide) (by decide)

end AITrend
